import Mathlib

/-!
Shallow embedding of `search_service.py` (query-enrichment layer over the
Tavily search API) and proofs about its specification.

Text is modelled as `List Char`; external collaborators (the Tavily client,
the DuckDuckGo endpoint, HTTP retrieval + HTML parsing, the spaCy NLP model,
the SHA-256 digest and the clock) are modelled as explicit oracle parameters,
so every repository function is a pure, executable Lean definition.
-/

namespace SearchService

/-- Python's whitespace class `\s` restricted to its ASCII members,
matching both the `re.sub(r"\s+", " ", ...)` call and `str.strip()`
in `clean_text` / `search_web`. -/
def isSpace (c : Char) : Bool :=
  c == ' ' || c == '\t' || c == '\n' || c == '\r' || c == '\x0b' || c == '\x0c'

/-- One step of `re.sub(r"\s+", " ", text)`: the boolean records whether we
are inside a whitespace run whose single replacement space was already
emitted. -/
def collapseAux : Bool → List Char → List Char
  | _, [] => []
  | inRun, c :: rest =>
    if isSpace c then
      if inRun then collapseAux true rest
      else ' ' :: collapseAux true rest
    else c :: collapseAux false rest

/-- `re.sub(r"\s+", " ", text)`: every maximal whitespace run becomes one
space. -/
def collapseWs (l : List Char) : List Char := collapseAux false l

/-- Removes trailing whitespace characters (the right half of
`str.strip()`). -/
def dropTrailWs : List Char → List Char
  | [] => []
  | c :: rest =>
    match dropTrailWs rest with
    | [] => if isSpace c then [] else [c]
    | d :: r => c :: d :: r

/-- Python `str.strip()`: removes leading and trailing whitespace. -/
def stripChars (l : List Char) : List Char := dropTrailWs (l.dropWhile isSpace)

/-- Case-insensitive literal match (the pattern is given lowercased):
returns the input remainder after the pattern when it is a prefix of the
input under `re.I` case folding. -/
def matchCaseless : List Char → List Char → Option (List Char)
  | [], l => some l
  | _ :: _, [] => none
  | p :: ps, c :: cs => if c.toLower = p then matchCaseless ps cs else none

/-- Match of the alternative `Image \d+:` of the boilerplate regex in
`clean_text`: the literal `Image ` (case-insensitively), one or more digits
(greedy), then a colon. -/
def matchImage (l : List Char) : Option (List Char) :=
  match matchCaseless "image ".data l with
  | none => none
  | some rest =>
    if (rest.takeWhile Char.isDigit).isEmpty then none
    else
      match rest.dropWhile Char.isDigit with
      | ':' :: r => some r
      | _ => none

/-- Tries the alternatives of `(LOGIN|Subscribe|e-?Paper|Account|Image \d+:)`
at the head of the input (the alternatives start with pairwise distinct
letters, so at most one can match); returns the remainder after the match.
`e-?Paper` is greedy: the hyphenated form is tried first. -/
def tryPats (l : List Char) : Option (List Char) :=
  match matchCaseless "login".data l with
  | some r => some r
  | none =>
  match matchCaseless "subscribe".data l with
  | some r => some r
  | none =>
  match matchCaseless "e-paper".data l with
  | some r => some r
  | none =>
  match matchCaseless "epaper".data l with
  | some r => some r
  | none =>
  match matchCaseless "account".data l with
  | some r => some r
  | none => matchImage l

/-- `re.sub(pattern, "", text)` as a left-to-right scan: at each position a
match is deleted and scanning resumes after it, otherwise one character is
kept.  The fuel argument (instantiated with the input length, which bounds
the number of steps) keeps the recursion structural so that the definition
evaluates inside the kernel. -/
def removePatsFuel : Nat → List Char → List Char
  | 0, l => l
  | _ + 1, [] => []
  | fuel + 1, c :: rest =>
    match tryPats (c :: rest) with
    | some r => removePatsFuel fuel r
    | none => c :: removePatsFuel fuel rest

/-- `re.sub(r"(LOGIN|Subscribe|e-?Paper|Account|Image \d+:)", "", text, flags=re.I)`. -/
def removePats (l : List Char) : List Char := removePatsFuel l.length l

/-- True when the boilerplate pattern matches somewhere in the input. -/
def hasPat : List Char → Bool
  | [] => false
  | c :: rest => (tryPats (c :: rest)).isSome || hasPat rest

/-- `clean_text`: empty text is returned unchanged; otherwise boilerplate
matches are deleted, whitespace runs are collapsed to single spaces and the
ends are stripped. -/
def clean_text (l : List Char) : List Char :=
  if l = [] then [] else stripChars (collapseWs (removePats l))

example : clean_text "  hello   world  ".data = "hello world".data := by decide
example : clean_text "LOGLOGININ".data = "LOGIN".data := by decide
example : clean_text "LOGIN".data = [] := by decide
example : clean_text "Image  1: x".data = "Image 1: x".data := by decide

/-- The spaCy pipeline (`nlp = spacy.load("en_core_web_sm")`), an external
black box: sentence segmentation (`doc.sents`) and noun-phrase extraction
(`doc.noun_chunks`).  `nlp : Option NlpModel` models that the model may
fail to load (`nlp = None`). -/
structure NlpModel where
  sents : List Char → List (List Char)
  nounChunks : List Char → List (List Char)

/-- `" ".join(parts)`. -/
def joinSpace : List (List Char) → List Char
  | [] => []
  | [s] => s
  | s :: t :: r => s ++ ' ' :: joinSpace (t :: r)

/-- `summarize_text(text, max_sentences=3)`: empty text or a missing NLP
model degrade to a 500-character truncation (empty text yields empty
output); otherwise the first `maxS` segmented sentences joined by single
spaces, falling back to truncation when segmentation finds no sentence. -/
def summarize_text (nlp : Option NlpModel) (maxS : Nat) (text : List Char) : List Char :=
  match nlp with
  | none => text.take 500
  | some m =>
    if text = [] then []
    else
      let ss := m.sents text
      if ss = [] then text.take 500
      else joinSpace (ss.take maxS)

/-- `extract_keywords(text, max_keywords=5)`: empty text or a missing NLP
model yield no keywords; otherwise the first `maxK` noun chunks in document
order. -/
def extract_keywords (nlp : Option NlpModel) (maxK : Nat) (text : List Char) : List (List Char) :=
  match nlp with
  | none => []
  | some m => if text = [] then [] else (m.nounChunks text).take maxK

/-- `extract_text_from_url(url)`: the whole body runs inside
`try ... except Exception: return ""`.  `httpGet` models
`requests.get(url, timeout=5).text` (network or timeout failure as
`Except.error`); `soupText` models the BeautifulSoup stage — parsing,
removal of `script`/`style`/`header`/`footer`/`nav` tags and
`get_text(separator=" ")` (parse failure as `Except.error`).  The extracted
text is passed through `clean_text`; any raised exception becomes the empty
string. -/
def extract_text_from_url (httpGet : String → Except String String)
    (soupText : String → Except String (List Char)) (url : String) : List Char :=
  match httpGet url with
  | .error _ => []
  | .ok body =>
    match soupText body with
    | .error _ => []
    | .ok t => clean_text t

/-- `SearchConfig` dataclass.  `include_domains`/`exclude_domains` default to
`None`; `Option` distinguishes `None` from a present list. -/
structure SearchConfig where
  search_depth : String
  include_images : Bool
  include_domains : Option (List String)
  exclude_domains : Option (List String)
  max_results : Int
  search_type : String
  time_frame : String
  language : String
deriving DecidableEq

/-- `CACHE_TTL = 60 * 10`. -/
def CACHE_TTL : Nat := 60 * 10

/-- `NEWS_CACHE_TTL = 60 * 5`. -/
def NEWS_CACHE_TTL : Nat := 60 * 5

/-- The TTL chosen in `get_cached_result`:
`NEWS_CACHE_TTL if config.search_type == "news" else CACHE_TTL`. -/
def ttl_for (cfg : SearchConfig) : Nat :=
  if cfg.search_type = "news" then NEWS_CACHE_TTL else CACHE_TTL

/-- Minimal JSON string escaping used by `json.dumps` on the plain
configuration fields. -/
def jsonEscapeChar (c : Char) : List Char :=
  if c = '"' then ['\\', '"'] else if c = '\\' then ['\\', '\\'] else [c]

/-- `json.dumps` of a string value. -/
def jsonStr (s : String) : String :=
  "\"" ++ String.mk (s.data.flatMap jsonEscapeChar) ++ "\""

/-- `json.dumps({'depth': config.search_depth, 'type': config.search_type,
'time': config.time_frame})` with `json.dumps` default separators and
insertion-ordered keys. -/
def configJson (cfg : SearchConfig) : String :=
  "\x7b\"depth\": " ++ jsonStr cfg.search_depth ++
  ", \"type\": " ++ jsonStr cfg.search_type ++
  ", \"time\": " ++ jsonStr cfg.time_frame ++ "\x7d"

/-- The exact string fed to `hashlib.sha256` in `get_cache_key`:
`f"{query}:{config_str}"`. -/
def cacheKeyMsg (query : String) (cfg : SearchConfig) : String :=
  query ++ ":" ++ configJson cfg

/-- `get_cache_key(query, config)`.  The SHA-256 hex digest is an external
primitive, modelled as an explicit digest-function parameter `h` applied to
the exact digest input. -/
def get_cache_key (h : String → String) (query : String) (cfg : SearchConfig) : String :=
  h (cacheKeyMsg query cfg)

/-- The module-level dict `_cache_store`, keyed by hex digests; modelled as
an association list with unique keys (insertion replaces). -/
abbrev CacheStore (α : Type) : Type := List (String × α × Nat)

/-- Dict membership/read `_cache_store[key]`. -/
def lookupEntry {α : Type} (k : String) : CacheStore α → Option (α × Nat)
  | [] => none
  | e :: rest => if e.1 = k then some e.2 else lookupEntry k rest

/-- Dict deletion `del _cache_store[key]`. -/
def eraseEntry {α : Type} (k : String) (c : CacheStore α) : CacheStore α :=
  c.filter (fun e => decide ¬(e.1 = k))

/-- `get_cached_result(query, config)`: returns the entry while it is
younger than the type-dependent TTL, and otherwise deletes the stale entry;
`tnow` models `time.time()`.  The second component is the cache after the
call (the deletion is the only mutation). -/
def get_cached_result {α : Type} (h : String → String) (tnow : Nat) (query : String)
    (cfg : SearchConfig) (c : CacheStore α) : Option α × CacheStore α :=
  let k := get_cache_key h query cfg
  match lookupEntry k c with
  | none => (none, c)
  | some (data, ts) =>
    if tnow - ts < ttl_for cfg then (some data, c) else (none, eraseEntry k c)

/-- `set_cached_result(query, config, data)`: unconditional insert/overwrite
stamped with the current time. -/
def set_cached_result {α : Type} (h : String → String) (tnow : Nat) (query : String)
    (cfg : SearchConfig) (data : α) (c : CacheStore α) : CacheStore α :=
  (get_cache_key h query cfg, data, tnow) :: eraseEntry (get_cache_key h query cfg) c

/-- One raw provider result (a JSON dict): `Option` distinguishes an absent
key (so that `r.get(key, default)` returns the default) from a present
value.  Scores are numeric pass-through values. -/
structure RawResult where
  title : Option String
  url : Option String
  content : Option (List Char)
  image_url : Option String
  score : Option Int
  published_date : Option String
deriving DecidableEq

/-- The Tavily payload consumed by the orchestrator:
`response.get("results", [])` and `response.get("answer")`. -/
structure TavilyResponse where
  results : List RawResult
  answer : Option String
deriving DecidableEq

/-- Python truthiness of an optional string: `None` and `""` are falsy. -/
def truthy : Option String → Bool
  | none => false
  | some s => decide ¬(s = "")

/-- Python truthiness of an optional list: `None` and `[]` are falsy. -/
def listTruthy : Option (List String) → Bool
  | none => false
  | some l => !l.isEmpty

/-- The snippet-truncation idiom
`c[:n] + "..." if len(c) > n else c` shared by all three formatters. -/
def pyTrunc (n : Nat) (c : List Char) : List Char :=
  if n < c.length then c.take n ++ "...".data else c

/-- One entry of `format_general_results`. -/
structure GFormatted where
  title : String
  content : List Char
  url : String
  score : Int
  published_date : String
deriving DecidableEq

/-- One entry of `format_news_results`. -/
structure NFormatted where
  headline : String
  summary : List Char
  source : String
  url : String
  published_date : String
deriving DecidableEq

/-- One entry of `format_image_results`. -/
structure IFormatted where
  title : String
  image_url : String
  source_url : String
  description : List Char
deriving DecidableEq

/-- The three type-specific projections stored in `formatted_results`. -/
inductive Formatted where
  | general (g : GFormatted)
  | news (n : NFormatted)
  | image (i : IFormatted)
deriving DecidableEq

/-- The dict built per result by `format_general_results`. -/
def formatGeneralOne (r : RawResult) : GFormatted :=
  { title := r.title.getD "No title"
    content := pyTrunc 200 (r.content.getD [])
    url := r.url.getD ""
    score := r.score.getD 0
    published_date := r.published_date.getD "Unknown" }

/-- `format_general_results(results)`. -/
def format_general_results (rs : List RawResult) : List GFormatted :=
  rs.map formatGeneralOne

/-- Python `str.split("/")`: splits at every slash, keeping empty chunks
(`"".split("/") == [""]`). -/
def splitSlash : List Char → List (List Char)
  | [] => [[]]
  | c :: rest =>
    if c = '/' then [] :: splitSlash rest
    else
      match splitSlash rest with
      | [] => [[c]]
      | s :: ss => (c :: s) :: ss

/-- The dict built per result by `format_news_results`.
`r.get("url", "").split("/")[2] if r.get("url") else ""` raises `IndexError`
(modelled as `Except.error ()`) when a truthy URL splits into fewer than
three slash-separated parts. -/
def formatNewsOne (r : RawResult) : Except Unit NFormatted :=
  match (if truthy r.url then (splitSlash (r.url.getD "").data)[2]?.map String.mk
         else some "") with
  | none => .error ()
  | some src =>
    .ok { headline := r.title.getD "No headline"
          summary := pyTrunc 150 (r.content.getD [])
          source := src
          url := r.url.getD ""
          published_date := r.published_date.getD "Unknown" }

/-- `format_news_results(results)`; the comprehension raises at the first
offending element. -/
def format_news_results (rs : List RawResult) : Except Unit (List NFormatted) :=
  rs.mapM formatNewsOne

/-- The dict built per kept result by `format_image_results`. -/
def formatImageOne (r : RawResult) : IFormatted :=
  { title := r.title.getD "No title"
    image_url := r.image_url.getD ""
    source_url := r.url.getD ""
    description := pyTrunc 100 (r.content.getD []) }

/-- `format_image_results(results)`: the comprehension keeps only results
whose `image_url` is truthy. -/
def format_image_results (rs : List RawResult) : List IFormatted :=
  (rs.filter (fun r => truthy r.image_url)).map formatImageOne

/-- One structured insight appended by the enhancement loop. -/
structure Insight where
  title : String
  url : Option String
  summary : List Char
  keywords : List (List Char)
deriving DecidableEq

/-- Externally observable effects of one request, used to state
"without invoking" / frame properties. -/
inductive Event where
  | tavilyCall
  | ddgCall
  | fetchUrl (url : String)
  | cacheStore (key : String)
deriving DecidableEq

/-- Parameters passed to `tavily_client.search` after the orchestrator's
conditional shaping (`include_domains`/`exclude_domains` only when truthy,
`time_frame` only when not `"auto"`). -/
structure TavilyParams where
  query : String
  search_depth : String
  include_images : Bool
  max_results : Int
  language : String
  include_domains : Option (List String)
  exclude_domains : Option (List String)
  time_frame : Option String
deriving DecidableEq

/-- One entry of the DuckDuckGo `RelatedTopics` array: either not a dict
(filtered out by the `isinstance(t, dict)` guard) or a dict whose `Text`
key may be absent. -/
inductive TopicItem where
  | notDict
  | dict (text : Option String)
deriving DecidableEq

/-- The DuckDuckGo JSON payload consumed by `perform_fallback_search`. -/
structure DdgJson where
  abstractText : Option String
  relatedTopics : List TopicItem
deriving DecidableEq

/-- The enhanced response dict assembled by `enhance_search_results` (the
unit stored in the cache).  `query_time` models
`datetime.now().isoformat()` as a numeric timestamp. -/
structure Enhanced where
  original_response : TavilyResponse
  query_time : Nat
  result_count : Nat
  search_type : String
  formatted_results : List Formatted
  insights : List Insight
  direct_answer : Option String
deriving DecidableEq

/-- Every dict shape `search_web` can return: the input-error dict, the two
shapes produced by `perform_fallback_search`, and an enhanced response
(with `"source": "cache"` spliced in on a cache hit). -/
inductive WebResponse where
  | errorMsg (message : String)
  | fallbackOk (answer : String) (related_topics : List String)
  | fallbackErr (error : String)
  | enhancedResp (e : Enhanced) (source : Option String)
deriving DecidableEq

/-- All external collaborators of one request: the SHA-256 digest `h`, the
optional Tavily client, the DuckDuckGo endpoint, the two stages of URL
content extraction, the optional spaCy model and the clock. -/
structure World where
  h : String → String
  tavily : Option (TavilyParams → Except String TavilyResponse)
  ddg : String → Except String DdgJson
  httpGet : String → Except String String
  soupText : String → Except String (List Char)
  nlp : Option NlpModel
  now : Nat

/-- The body of the per-result loop in `enhance_search_results`: when the
result has a truthy URL and its snippet is shorter than 100 characters the
fetched page text is appended (`content += " " + additional_content`), then
the text is cleaned, summarized and keyword-extracted.  Also returns the
fetch events the iteration performed. -/
def enhanceOne (w : World) (r : RawResult) : Insight × List Event :=
  let content0 := r.content.getD []
  let fetches := truthy r.url && decide (content0.length < 100)
  let content1 :=
    if fetches then
      content0 ++ ' ' :: extract_text_from_url w.httpGet w.soupText (r.url.getD "")
    else content0
  let c := clean_text content1
  ({ title := r.title.getD "No title"
     url := r.url
     summary := summarize_text w.nlp 3 c
     keywords := extract_keywords w.nlp 5 c },
   if fetches then [Event.fetchUrl (r.url.getD "")] else [])

/-- The full insights loop of `enhance_search_results`, with the fetch
events it performs in order. -/
def mkInsights (w : World) (rs : List RawResult) : List Insight × List Event :=
  (rs.map (fun r => (enhanceOne w r).1), (rs.map (fun r => (enhanceOne w r).2)).flatten)

/-- The type dispatch filling `enhanced["formatted_results"]`: news, image
or general projection by `config.search_type`; only the news projection can
raise (`IndexError` on a short URL). -/
def formattedFor (cfg : SearchConfig) (rs : List RawResult) : Except Unit (List Formatted) :=
  if cfg.search_type = "news" then
    (format_news_results rs).map (fun l => l.map Formatted.news)
  else if cfg.search_type = "image" then
    .ok ((format_image_results rs).map Formatted.image)
  else
    .ok ((format_general_results rs).map Formatted.general)

/-- `enhance_search_results(response, config)`: builds the metadata and the
insights, then the type-specific `formatted_results` projection, then the
optional `direct_answer` (present only when `response.get("answer")` is
truthy).  The insights loop and its fetch events happen before the
projection, so the events are reported even when the news projection raises
and the whole call degrades to the error case. -/
def enhance_search_results (w : World) (resp : TavilyResponse) (cfg : SearchConfig) :
    Except Unit Enhanced × List Event :=
  ((formattedFor cfg resp.results).map (fun f =>
    { original_response := resp
      query_time := w.now
      result_count := resp.results.length
      search_type := cfg.search_type
      formatted_results := f
      insights := (mkInsights w resp.results).1
      direct_answer :=
        match resp.answer with
        | some s => if s = "" then none else some s
        | none => none }),
   (mkInsights w resp.results).2)

/-- `query[:400]`. -/
def strTake (s : String) (n : Nat) : String := String.mk (s.data.take n)

/-- `perform_fallback_search(query)`: queries the DuckDuckGo endpoint with
the query truncated to 400 characters (URL quoting is part of the modelled
endpoint); on success extracts `AbstractText` (with the default message
when the key is absent) and the `Text` of the first three related topics
that are dicts; any exception becomes the error-status dict. -/
def perform_fallback_search (w : World) (query : String) : WebResponse :=
  match w.ddg (strTake query 400) with
  | .ok d =>
    .fallbackOk (d.abstractText.getD "No direct answer found.")
      ((d.relatedTopics.take 3).filterMap
        (fun t => match t with
          | .dict tx => some (tx.getD "")
          | .notDict => none))
  | .error e => .fallbackErr e

/-- `str.strip()` on a whole string. -/
def pyStrip (s : String) : String := String.mk (stripChars s.data)

/-- The `params` dict built in `search_web` before type dispatch. -/
def buildParams (cfg : SearchConfig) (query : String) : TavilyParams :=
  { query := strTake query 400
    search_depth := cfg.search_depth
    include_images := cfg.include_images
    max_results := cfg.max_results
    language := cfg.language
    include_domains := if listTruthy cfg.include_domains then cfg.include_domains else none
    exclude_domains := if listTruthy cfg.exclude_domains then cfg.exclude_domains else none
    time_frame := if cfg.time_frame = "auto" then none else some cfg.time_frame }

/-- The parameters actually sent by the chosen `perform_*_search` wrapper:
`news` forces `search_depth = "advanced"`, `image` forces
`include_images = True`. -/
def dispatchParams (cfg : SearchConfig) (query : String) : TavilyParams :=
  let p := buildParams cfg query
  if cfg.search_type = "news" then { p with search_depth := "advanced" }
  else if cfg.search_type = "image" then { p with include_images := true }
  else p

/-- `search_web(query, phone_number, config)`: rejects blank queries, then
checks the cache (`{**cached, "source": "cache"}` on a hit), falls back to
DuckDuckGo when the Tavily client is absent, and otherwise dispatches to
Tavily inside `try ... except`, so that a raising dispatch or a raising
enhancement also degrades to the fallback; only the successful enhancement
path stores into the cache.  Returns the response, the cache after the
request and the emitted external events. -/
def search_web (w : World) (query _phone : String) (cfg : SearchConfig)
    (cache : CacheStore Enhanced) : WebResponse × CacheStore Enhanced × List Event :=
  if pyStrip query = "" then
    (.errorMsg "Please provide a search query.", cache, [])
  else
    match get_cached_result w.h w.now query cfg cache with
    | (some data, cache1) => (.enhancedResp data (some "cache"), cache1, [])
    | (none, cache1) =>
      match w.tavily with
      | none => (perform_fallback_search w query, cache1, [Event.ddgCall])
      | some f =>
        match f (dispatchParams cfg query) with
        | .error _ => (perform_fallback_search w query, cache1, [Event.tavilyCall, Event.ddgCall])
        | .ok resp =>
          match enhance_search_results w resp cfg with
          | (.error _, evs) =>
            (perform_fallback_search w query, cache1, Event.tavilyCall :: evs ++ [Event.ddgCall])
          | (.ok e, evs) =>
            (.enhancedResp e none,
             set_cached_result w.h w.now query cfg e cache1,
             Event.tavilyCall :: evs ++ [Event.cacheStore (get_cache_key w.h query cfg)])

/-! ## Helper lemmas -/

theorem lookupEntry_erase {α : Type} (k : String) (c : CacheStore α) :
    lookupEntry k (eraseEntry k c) = none := by
  induction c with
  | nil => rfl
  | cons e rest ih =>
    by_cases hk : e.1 = k
    · simpa [eraseEntry, List.filter_cons, hk] using ih
    · simpa [eraseEntry, List.filter_cons, hk, lookupEntry] using ih

theorem stringDataEq {s t : String} (h : s.data = t.data) : s = t := by
  cases s; cases t; exact congrArg String.mk h

theorem stringAppendCancelRight (a b c : String) (h : a ++ c = b ++ c) : a = b := by
  apply stringDataEq
  have hd := congrArg String.data h
  rw [String.data_append, String.data_append] at hd
  exact List.append_cancel_right hd

/-- A fixed configuration used by concrete evaluations. -/
def cfg0 : SearchConfig :=
  { search_depth := "advanced", include_images := false, include_domains := none
    exclude_domains := none, max_results := 10, search_type := "general"
    time_frame := "auto", language := "en" }

/-- A fixed world with no Tavily client, an unreachable fallback endpoint and
no NLP model, used by concrete evaluations. -/
def w0 : World :=
  { h := id, tavily := none, ddg := fun _ => .error "down"
    httpGet := fun _ => .error "down", soupText := fun _ => .error "down"
    nlp := none, now := 0 }

/-! ## C1 — cache round-trip and TTL expiry -/

/-- C1: after `store(q, c, r)` at time `t0`, a lookup at time `t0 + t`
returns exactly `r` (and leaves the cache unchanged) while `t` is below the
type-dependent TTL (300 s for `news`, 600 s otherwise); once `t` reaches the
TTL the lookup returns none and deletes the stale entry. -/
theorem cache_roundtrip_and_expiry {α : Type} (h : String → String) (q : String)
    (cfg : SearchConfig) (r : α) (cache : CacheStore α) (t0 t : Nat) :
    (t < ttl_for cfg →
      get_cached_result h (t0 + t) q cfg (set_cached_result h t0 q cfg r cache) =
        (some r, set_cached_result h t0 q cfg r cache)) ∧
    (ttl_for cfg ≤ t →
      (get_cached_result h (t0 + t) q cfg (set_cached_result h t0 q cfg r cache)).1 = none ∧
      lookupEntry (get_cache_key h q cfg)
        (get_cached_result h (t0 + t) q cfg (set_cached_result h t0 q cfg r cache)).2 = none) := by
  have hlook : lookupEntry (get_cache_key h q cfg) (set_cached_result h t0 q cfg r cache) =
      some (r, t0) := by
    simp [set_cached_result, lookupEntry]
  constructor
  · intro hlt
    simp [get_cached_result, hlook, Nat.add_sub_cancel_left, hlt]
  · intro hge
    have hnlt : ¬ t < ttl_for cfg := by omega
    constructor
    · simp only [get_cached_result, hlook, Nat.add_sub_cancel_left]
      rw [if_neg hnlt]
    · simp only [get_cached_result, hlook, Nat.add_sub_cancel_left]
      rw [if_neg hnlt]
      exact lookupEntry_erase _ _

/-- Witness for C1 at a concrete store/lookup pair: a hit 100 s after the
store and an expiry 600 s after it. -/
theorem cache_roundtrip_and_expiry_witness :
    (get_cached_result id (0 + 100) "q" cfg0 (set_cached_result id 0 "q" cfg0 (7 : Nat) []) =
      (some 7, set_cached_result id 0 "q" cfg0 7 [])) ∧
    (get_cached_result id (0 + 600) "q" cfg0 (set_cached_result id 0 "q" cfg0 (7 : Nat) [])).1 =
      none :=
  ⟨(cache_roundtrip_and_expiry id "q" cfg0 7 [] 0 100).1 (by decide),
   ((cache_roundtrip_and_expiry id "q" cfg0 7 [] 0 600).2 (by decide)).1⟩

/-! ## C9 — fail-soft URL content fetch -/

/-- C9: `extract_text_from_url` never propagates a failure: a raising
retrieval (network/timeout) or a raising parse both yield the empty string,
and on success the extracted page text is returned normalized by
`clean_text`. -/
theorem extract_text_fail_soft (httpGet : String → Except String String)
    (soupText : String → Except String (List Char)) (url : String) :
    (∀ err, httpGet url = .error err → extract_text_from_url httpGet soupText url = []) ∧
    (∀ body err, httpGet url = .ok body → soupText body = .error err →
      extract_text_from_url httpGet soupText url = []) ∧
    (∀ body t, httpGet url = .ok body → soupText body = .ok t →
      extract_text_from_url httpGet soupText url = clean_text t) := by
  refine ⟨fun err h1 => ?_, fun body err h1 h2 => ?_, fun body t h1 h2 => ?_⟩
  · simp [extract_text_from_url, h1]
  · simp [extract_text_from_url, h1, h2]
  · simp [extract_text_from_url, h1, h2]

/-- Witness for C9 on concrete oracles: a network failure, a parse failure
and a success. -/
theorem extract_text_fail_soft_witness :
    extract_text_from_url (fun _ => .error "down") (fun _ => .ok []) "u" = [] ∧
    extract_text_from_url (fun _ => .ok "b") (fun _ => .error "parse") "u" = [] ∧
    extract_text_from_url (fun _ => .ok "b") (fun _ => .ok "hi".data) "u" = clean_text "hi".data :=
  ⟨(extract_text_fail_soft (fun _ => .error "down") (fun _ => .ok []) "u").1 "down" rfl,
   (extract_text_fail_soft (fun _ => .ok "b") (fun _ => .error "parse") "u").2.1 "b" "parse" rfl rfl,
   (extract_text_fail_soft (fun _ => .ok "b") (fun _ => .ok "hi".data) "u").2.2 "b" "hi".data rfl rfl⟩

/-! ## C10 — formatted-result truncation bounds -/

theorem pyTrunc_length_le (n : Nat) (c : List Char) : (pyTrunc n c).length ≤ n + 3 := by
  have h3 : ("...".data).length = 3 := rfl
  unfold pyTrunc
  by_cases hc : n < c.length
  · simp only [hc, if_true, List.length_append, List.length_take, h3]
    omega
  · simp only [hc, if_false]
    omega

/-- C10: every formatted text field is bounded by prefix-truncation with an
appended ellipsis — the general `content` is the snippet itself when it has
at most 200 characters and its 200-character prefix followed by `"..."`
otherwise (never more than 203 characters); the news `summary` is bounded by
153 characters and the image `description` by 103. -/
theorem formatted_results_truncated (r : RawResult) :
    (formatGeneralOne r).content =
      (if 200 < (r.content.getD []).length then (r.content.getD []).take 200 ++ "...".data
       else r.content.getD []) ∧
    (formatGeneralOne r).content.length ≤ 203 ∧
    (∀ n, formatNewsOne r = .ok n → n.summary.length ≤ 153) ∧
    (formatImageOne r).description.length ≤ 103 := by
  refine ⟨rfl, pyTrunc_length_le 200 _, fun n hn => ?_, pyTrunc_length_le 100 _⟩
  have hs : n.summary = pyTrunc 150 (r.content.getD []) := by
    unfold formatNewsOne at hn
    cases hsrc : (if truthy r.url then (splitSlash (r.url.getD "").data)[2]?.map String.mk
                  else some "") with
    | none => rw [hsrc] at hn; cases hn
    | some src =>
      rw [hsrc] at hn
      cases hn
      rfl
  rw [hs]
  exact pyTrunc_length_le 150 _

/-- Witness for C10's news conjunct at a concrete raw result. -/
theorem formatted_results_truncated_witness :
    ({ headline := "No headline", summary := [], source := "h", url := "https://h/p"
       published_date := "Unknown" } : NFormatted).summary.length ≤ 153 :=
  (formatted_results_truncated
    ⟨none, some "https://h/p", none, none, none, none⟩).2.2.1 _ (by rfl)

/-! ## C6 — the cache fingerprint depends on exactly (query, depth, type, time) -/

/-- C6: the fingerprint is a deterministic function of exactly the query
string, `search_depth`, `search_type` and `time_frame` — configurations
agreeing on those three fields yield equal fingerprints whatever digest
function models SHA-256, whatever `max_results`, domain filters,
`include_images` or `language` are; and the query is not normalized, so any
two distinct query strings (in particular ones differing only in case or
whitespace) yield distinct digest inputs, hence distinct fingerprints for an
injective digest. -/
theorem cache_key_exact_fields :
    (∀ (h : String → String) (q : String) (c1 c2 : SearchConfig),
      c1.search_depth = c2.search_depth → c1.search_type = c2.search_type →
      c1.time_frame = c2.time_frame → get_cache_key h q c1 = get_cache_key h q c2) ∧
    (∀ (h : String → String), Function.Injective h →
      ∀ (q1 q2 : String) (c : SearchConfig), ¬ q1 = q2 →
        ¬ get_cache_key h q1 c = get_cache_key h q2 c) := by
  constructor
  · intro h q c1 c2 h1 h2 h3
    unfold get_cache_key cacheKeyMsg configJson
    rw [h1, h2, h3]
  · intro h hinj q1 q2 c hq heq
    apply hq
    have hmsg : cacheKeyMsg q1 c = cacheKeyMsg q2 c := hinj heq
    unfold cacheKeyMsg at hmsg
    have := stringAppendCancelRight _ _ _ hmsg
    exact stringAppendCancelRight _ _ _ this

/-- Witness for C6: configurations differing only in `max_results` and
`include_images` share a fingerprint, while queries differing only in case
do not (under the identity digest, which is injective). -/
theorem cache_key_exact_fields_witness :
    get_cache_key id "abc" cfg0 =
      get_cache_key id "abc" { cfg0 with max_results := 3, include_images := true } ∧
    ¬ get_cache_key id "abc" cfg0 = get_cache_key id "Abc" cfg0 :=
  ⟨cache_key_exact_fields.1 id "abc" cfg0
      { cfg0 with max_results := 3, include_images := true } rfl rfl rfl,
   cache_key_exact_fields.2 id (fun _ _ hab => hab) "abc" "Abc" cfg0 (by decide)⟩

/-! ## C2 — blank queries are rejected without any backend contact -/

theorem stripChars_of_all_space (l : List Char) (h : ∀ c ∈ l, isSpace c = true) :
    stripChars l = [] := by
  unfold stripChars
  rw [List.dropWhile_eq_nil_iff.2 h]
  rfl

/-- C2: for a query that is empty or consists only of whitespace,
`search_web` returns the user-visible input-error response, the cache is
untouched, and no event at all is emitted — no primary-provider call, no
fallback call, no cache store, no URL fetch. -/
theorem search_web_rejects_blank (w : World) (q phone : String) (cfg : SearchConfig)
    (cache : CacheStore Enhanced) (hq : ∀ c ∈ q.data, isSpace c = true) :
    search_web w q phone cfg cache =
      (.errorMsg "Please provide a search query.", cache, []) := by
  have hs : pyStrip q = "" := by
    unfold pyStrip
    rw [stripChars_of_all_space q.data hq]
  simp [search_web, hs]

/-- Witness for C2 on the three-space query. -/
theorem search_web_rejects_blank_witness :
    search_web w0 "   " "user" cfg0 [] =
      (.errorMsg "Please provide a search query.", [], []) :=
  search_web_rejects_blank w0 "   " "user" cfg0 [] (by decide)

/-! ## C4 — idempotence of the text normalizer -/

/-- The head of the list, when present, is not whitespace. -/
def headNotWs : List Char → Bool
  | [] => true
  | c :: _ => !isSpace c

/-- Canonical whitespace shape of `re.sub(r"\s+", " ", ...)` output: every
whitespace character is a plain space and no whitespace character is
followed by another. -/
def wsOk : List Char → Bool
  | [] => true
  | c :: rest => (if isSpace c then (c = ' ' : Bool) && headNotWs rest else true) && wsOk rest

theorem bandElim {a b : Bool} (h : (a && b) = true) : a = true ∧ b = true := by
  cases a <;> cases b <;> simp_all

theorem wsOk_tail {c : Char} {rest : List Char} (h : wsOk (c :: rest) = true) :
    wsOk rest = true := by
  unfold wsOk at h
  exact (bandElim h).2

theorem collapseAux_inv (l : List Char) :
    wsOk (collapseAux false l) = true ∧ wsOk (collapseAux true l) = true ∧
      headNotWs (collapseAux true l) = true := by
  induction l with
  | nil => exact ⟨rfl, rfl, rfl⟩
  | cons c rest ih =>
    by_cases hc : isSpace c = true
    · refine ⟨?_, ?_, ?_⟩
      · simp only [collapseAux, hc, if_true]
        unfold wsOk
        simp [isSpace, ih.2.1, ih.2.2]
      · simp only [collapseAux, hc, if_true]
        exact ih.2.1
      · simp only [collapseAux, hc, if_true]
        exact ih.2.2
    · refine ⟨?_, ?_, ?_⟩
      · simp only [collapseAux, hc, if_false]
        unfold wsOk
        simp [hc, ih.1]
      · simp only [collapseAux, hc, if_false]
        unfold wsOk
        simp [hc, ih.1]
      · simp only [collapseAux, hc, if_false]
        unfold headNotWs
        simp [hc]


theorem collapseAux_stable (l : List Char) (hok : wsOk l = true) :
    collapseAux false l = l ∧ (headNotWs l = true → collapseAux true l = l) := by
  induction l with
  | nil => exact ⟨rfl, fun _ => rfl⟩
  | cons c rest ih =>
    have hrest : wsOk rest = true := wsOk_tail hok
    have hhead := (bandElim hok).1
    have heqF : collapseAux false (c :: rest) =
        if isSpace c then ' ' :: collapseAux true rest else c :: collapseAux false rest := rfl
    have heqT : collapseAux true (c :: rest) =
        if isSpace c then collapseAux true rest else c :: collapseAux false rest := rfl
    by_cases hc : isSpace c = true
    · rw [if_pos hc] at hhead
      have hsp : c = ' ' := by
        have := (bandElim hhead).1
        simpa using this
      have hnw : headNotWs rest = true := (bandElim hhead).2
      constructor
      · rw [heqF, if_pos hc, (ih hrest).2 hnw, hsp]
      · intro habs
        rw [show headNotWs (c :: rest) = !isSpace c from rfl, hc] at habs
        cases habs
    · constructor
      · rw [heqF, if_neg hc, (ih hrest).1]
      · intro _
        rw [heqT, if_neg hc, (ih hrest).1]

theorem wsOk_dropWhile (l : List Char) (h : wsOk l = true) :
    wsOk (l.dropWhile isSpace) = true := by
  induction l with
  | nil => exact h
  | cons c rest ih =>
    rw [List.dropWhile_cons]
    by_cases hc : isSpace c = true
    · rw [if_pos hc]
      exact ih (wsOk_tail h)
    · rw [if_neg hc]
      exact h

theorem headNotWs_dropWhile (l : List Char) : headNotWs (l.dropWhile isSpace) = true := by
  induction l with
  | nil => rfl
  | cons c rest ih =>
    rw [List.dropWhile_cons]
    by_cases hc : isSpace c = true
    · rw [if_pos hc]
      exact ih
    · rw [if_neg hc]
      unfold headNotWs
      simp [hc]

theorem dropTrailWs_cons_eq (c : Char) (rest : List Char) :
    dropTrailWs (c :: rest) =
      match dropTrailWs rest with
      | [] => if isSpace c then [] else [c]
      | d :: r => c :: d :: r := rfl

theorem dropTrailWs_head (c : Char) (rest : List Char) :
    dropTrailWs (c :: rest) = [] ∨ ∃ r, dropTrailWs (c :: rest) = c :: r := by
  cases hd : dropTrailWs rest with
  | nil =>
    by_cases hc : isSpace c = true
    · left
      simp [dropTrailWs, hd, hc]
    · right
      exact ⟨[], by simp [dropTrailWs, hd, hc]⟩
  | cons d r =>
    right
    exact ⟨d :: r, by simp [dropTrailWs, hd]⟩

theorem headNotWs_dropTrailWs (l : List Char) (h : headNotWs l = true) :
    headNotWs (dropTrailWs l) = true := by
  cases l with
  | nil => rfl
  | cons c rest =>
    rcases dropTrailWs_head c rest with h1 | ⟨r, h1⟩
    · rw [h1]; rfl
    · rw [h1]
      exact h

theorem wsOk_dropTrailWs (l : List Char) (h : wsOk l = true) :
    wsOk (dropTrailWs l) = true := by
  induction l with
  | nil => exact h
  | cons c rest ih =>
    have hrest : wsOk rest = true := wsOk_tail h
    have hhead := (bandElim h).1
    cases hd : dropTrailWs rest with
    | nil =>
      by_cases hc : isSpace c = true
      · simp [dropTrailWs, hd, hc, wsOk]
      · simp [dropTrailWs, hd, hc, wsOk, headNotWs]
    | cons d r =>
      have hdr : wsOk (d :: r) = true := by
        rw [← hd]
        exact ih hrest
      simp only [dropTrailWs, hd]
      unfold wsOk
      rw [Bool.and_eq_true]
      refine ⟨?_, hdr⟩
      by_cases hc : isSpace c = true
      · rw [if_pos hc]
        rw [if_pos hc] at hhead
        have hsp := (bandElim hhead).1
        have hnw : headNotWs rest = true := (bandElim hhead).2
        have : headNotWs (dropTrailWs rest) = true := headNotWs_dropTrailWs rest hnw
        rw [hd] at this
        rw [Bool.and_eq_true]
        exact ⟨hsp, this⟩
      · rw [if_neg hc]

theorem dropTrailWs_idem (l : List Char) : dropTrailWs (dropTrailWs l) = dropTrailWs l := by
  induction l with
  | nil => rfl
  | cons c rest ih =>
    cases hd : dropTrailWs rest with
    | nil =>
      by_cases hc : isSpace c = true
      · simp [dropTrailWs, hd, hc]
      · simp [dropTrailWs, hd, hc]
    | cons d r =>
      have ih' : dropTrailWs (d :: r) = d :: r := by
        rw [← hd]
        exact ih
      have h1 : dropTrailWs (c :: rest) = c :: d :: r := by
        rw [dropTrailWs_cons_eq, hd]
      rw [h1, dropTrailWs_cons_eq, ih']

theorem dropWhile_stable (l : List Char) (h : headNotWs l = true) :
    l.dropWhile isSpace = l := by
  cases l with
  | nil => rfl
  | cons c rest =>
    unfold headNotWs at h
    rw [List.dropWhile_cons, if_neg (by simpa using h)]

theorem stripCollapse_idem (z : List Char) :
    stripChars (collapseWs (stripChars (collapseWs z))) = stripChars (collapseWs z) := by
  have h1 : wsOk (collapseWs z) = true := (collapseAux_inv z).1
  have h2 : wsOk ((collapseWs z).dropWhile isSpace) = true := wsOk_dropWhile _ h1
  have h3 : headNotWs ((collapseWs z).dropWhile isSpace) = true := headNotWs_dropWhile _
  have h4 : wsOk (stripChars (collapseWs z)) = true := wsOk_dropTrailWs _ h2
  have h5 : headNotWs (stripChars (collapseWs z)) = true := headNotWs_dropTrailWs _ h3
  have h6 : collapseWs (stripChars (collapseWs z)) = stripChars (collapseWs z) :=
    (collapseAux_stable _ h4).1
  rw [h6]
  show dropTrailWs ((stripChars (collapseWs z)).dropWhile isSpace) = _
  rw [dropWhile_stable _ h5]
  unfold stripChars
  exact dropTrailWs_idem _

theorem removePatsFuel_stable (f : Nat) :
    ∀ l : List Char, l.length ≤ f → hasPat l = false → removePatsFuel f l = l := by
  induction f with
  | zero =>
    intro l _ _
    rfl
  | succ f ih =>
    intro l hlen hp
    cases l with
    | nil => rfl
    | cons c rest =>
      have h1 : (tryPats (c :: rest)).isSome = false ∧ hasPat rest = false := by
        unfold hasPat at hp
        exact Bool.or_eq_false_iff.1 hp
      cases ht : tryPats (c :: rest) with
      | some r =>
        rw [ht] at h1
        cases h1.1
      | none =>
        simp only [removePatsFuel, ht]
        rw [ih rest (by simpa using Nat.le_of_succ_le_succ hlen) h1.2]

theorem removePats_stable (l : List Char) (h : hasPat l = false) : removePats l = l :=
  removePatsFuel_stable l.length l le_rfl h

/-- C4 fails on the code: deleting one boilerplate match can create a new
one, so a second `clean_text` pass differs from the first —
`clean_text("LOGLOGININ")` is `"LOGIN"`, which a second pass erases. -/
theorem clean_text_not_idempotent :
    ¬ clean_text (clean_text "LOGLOGININ".data) = clean_text "LOGLOGININ".data := by decide

/-- C4 as amended: `clean_text` is idempotent on every input whose cleaned
form contains no further occurrence of the boilerplate patterns (deleting a
match, or collapsing whitespace, can create a new occurrence, and only then
does a second pass differ). -/
theorem clean_text_idempotent_on_patfree (l : List Char)
    (h : hasPat (clean_text l) = false) :
    clean_text (clean_text l) = clean_text l := by
  by_cases hl : l = []
  · subst hl
    rfl
  · have hct : clean_text l = stripChars (collapseWs (removePats l)) := by
      have hdef : clean_text l =
          if l = [] then [] else stripChars (collapseWs (removePats l)) := rfl
      rw [hdef, if_neg hl]
    by_cases h2 : clean_text l = []
    · rw [h2]
      rfl
    · have houter : clean_text (clean_text l) =
          stripChars (collapseWs (removePats (clean_text l))) := by
        have hdef : clean_text (clean_text l) =
            if clean_text l = [] then []
            else stripChars (collapseWs (removePats (clean_text l))) := rfl
        rw [hdef, if_neg h2]
      rw [houter, removePats_stable _ h, hct]
      exact stripCollapse_idem (removePats l)

/-- Witness for C4's amended statement at a pattern-free input. -/
theorem clean_text_idempotent_on_patfree_witness :
    clean_text (clean_text "  hello   world ".data) = clean_text "  hello   world ".data :=
  clean_text_idempotent_on_patfree "  hello   world ".data (by decide)

/-! ## C7 — the enhancement pass preserves count and order -/

theorem exceptMapOk {α β : Type} (g : α → β) (x : Except Unit α) (b : β)
    (h : x.map g = .ok b) : ∃ a, x = .ok a ∧ b = g a := by
  cases x with
  | error e => simp [Except.map] at h
  | ok a =>
    refine ⟨a, rfl, ?_⟩
    simpa [Except.map] using h.symm

theorem enhance_ok_insights (w : World) (resp : TavilyResponse) (cfg : SearchConfig)
    (e : Enhanced) (h : (enhance_search_results w resp cfg).1 = .ok e) :
    e.insights = resp.results.map (fun r => (enhanceOne w r).1) := by
  unfold enhance_search_results at h
  obtain ⟨f, hf, he⟩ := exceptMapOk _ _ _ h
  rw [he]
  rfl

/-- C7: on provider success the enhancement pass yields exactly one insight
per raw result, in the provider's order: the i-th insight carries the i-th
raw result's title (with the `"No title"` default) and its URL. -/
theorem enhance_preserves_order (w : World) (resp : TavilyResponse) (cfg : SearchConfig)
    (e : Enhanced) (h : (enhance_search_results w resp cfg).1 = .ok e) :
    e.insights.length = resp.results.length ∧
    ∀ i : Nat, i < resp.results.length →
      ∃ r ins, resp.results[i]? = some r ∧ e.insights[i]? = some ins ∧
        ins.title = r.title.getD "No title" ∧ ins.url = r.url := by
  have hins := enhance_ok_insights w resp cfg e h
  constructor
  · rw [hins, List.length_map]
  · intro i hi
    refine ⟨resp.results[i], (enhanceOne w resp.results[i]).1,
      List.getElem?_eq_getElem hi, ?_, ?_, ?_⟩
    · rw [hins, List.getElem?_map, List.getElem?_eq_getElem hi]
      rfl
    · simp [enhanceOne]
    · simp [enhanceOne]

/-- A raw result used by concrete evaluations of the enhancement pass. -/
def r7 : RawResult := ⟨some "T", some "http://u", some "c".data, none, none, none⟩

/-- The response `enhance_search_results` computes on `[r7]` in `w0`. -/
def e7 : Enhanced :=
  ⟨⟨[r7], none⟩, 0, 1, "general",
   [.general ⟨"T", "c".data, "http://u", 0, "Unknown"⟩],
   [⟨"T", some "http://u", "c".data, []⟩], none⟩

/-- Witness for C7 on a one-result response. -/
theorem enhance_preserves_order_witness :
    e7.insights.length = (⟨[r7], none⟩ : TavilyResponse).results.length :=
  (enhance_preserves_order w0 ⟨[r7], none⟩ cfg0 e7 (by rfl)).1

/-! ## C8 — image projection excludes image-less results, insights keep them -/

/-- C8: for an image-type search the enhancement never fails, its
`formatted_results` keeps exactly the raw results whose `image_url` is
truthy, and its `insights` keeps every raw result. -/
theorem enhance_image_excludes_missing (w : World) (resp : TavilyResponse)
    (cfg : SearchConfig) (himg : cfg.search_type = "image") :
    ∃ e, (enhance_search_results w resp cfg).1 = .ok e ∧
      e.formatted_results.length =
        (resp.results.filter (fun r => truthy r.image_url)).length ∧
      e.insights.length = resp.results.length := by
  have hfr : formattedFor cfg resp.results =
      .ok ((format_image_results resp.results).map Formatted.image) := by
    unfold formattedFor
    rw [himg]
    rfl
  refine ⟨⟨resp, w.now, resp.results.length, cfg.search_type,
           (format_image_results resp.results).map Formatted.image,
           (mkInsights w resp.results).1,
           match resp.answer with
           | some s => if s = "" then none else some s
           | none => none⟩, ?_, ?_, ?_⟩
  · unfold enhance_search_results
    rw [hfr]
    rfl
  · simp [format_image_results]
  · simp [mkInsights]

/-- An image-type configuration. -/
def cfgImg : SearchConfig := { cfg0 with search_type := "image" }

/-- Two raw results, only the first of which carries an image URL. -/
def respImg : TavilyResponse :=
  ⟨[⟨some "A", some "http://a", some "x".data, some "http://img", none, none⟩,
    ⟨some "B", some "http://b", some "y".data, none, none, none⟩], none⟩

/-- Witness for C8 on a response where one of two results lacks an image
URL. -/
theorem enhance_image_excludes_missing_witness :
    ∃ e, (enhance_search_results w0 respImg cfgImg).1 = .ok e ∧
      e.formatted_results.length =
        (respImg.results.filter (fun r => truthy r.image_url)).length ∧
      e.insights.length = respImg.results.length :=
  enhance_image_excludes_missing w0 respImg cfgImg rfl

/-! ## C5 — URL text is fetched and concatenated only for short snippets -/

/-- The world used by the C5 refutation: fetching any URL succeeds and
extracts the text `ZZZ`. -/
def w5 : World :=
  { h := id, tavily := none, ddg := fun _ => .error "down"
    httpGet := fun _ => .ok "", soupText := fun _ => .ok "ZZZ".data
    nlp := none, now := 0 }

/-- A raw result with a truthy URL whose snippet is exactly 100 characters
long. -/
def r5 : RawResult := ⟨none, some "u", some (List.replicate 100 'a'), none, none, none⟩

/-- The provider response holding just `r5`. -/
def resp5 : TavilyResponse := ⟨[r5], none⟩

/-- The insight the code actually computes for `r5`: built from the snippet
alone, without the fetched page text. -/
def ins5 : Insight := ⟨"No title", some "u", List.replicate 100 'a', []⟩

/-- The enhanced response the code actually computes on `resp5` in `w5`. -/
def e5 : Enhanced :=
  ⟨resp5, 0, 1, "general",
   [.general ⟨"No title", List.replicate 100 'a', "u", 0, "Unknown"⟩],
   [ins5], none⟩

/-- C5 fails on the code: for a result carrying a URL whose snippet already
has 100 characters, the fetched page text (`ZZZ` here) is *not*
concatenated — the insight is built from the snippet alone. -/
theorem enhance_fetch_counterexample :
    (enhance_search_results w5 resp5 cfg0).1 = .ok e5 ∧
    resp5.results[0]? = some r5 ∧ e5.insights[0]? = some ins5 ∧
    truthy r5.url = true ∧
    ¬ ins5.summary = summarize_text w5.nlp 3 (clean_text ((r5.content.getD []) ++
      ' ' :: extract_text_from_url w5.httpGet w5.soupText (r5.url.getD ""))) := by
  refine ⟨by rfl, rfl, rfl, rfl, by decide⟩

/-- C5 as amended: in the enhancement pass, for every raw result that
carries a truthy URL *and whose content snippet is shorter than 100
characters*, the insight is built from the snippet concatenated (through a
single space) with the text fetched from that URL, then normalized,
summarized and keyword-extracted. -/
theorem enhance_concats_fetched (w : World) (resp : TavilyResponse) (cfg : SearchConfig)
    (e : Enhanced) (i : Nat) (r : RawResult) (ins : Insight)
    (h : (enhance_search_results w resp cfg).1 = .ok e)
    (hr : resp.results[i]? = some r) (hins : e.insights[i]? = some ins)
    (hu : truthy r.url = true) (hlen : (r.content.getD []).length < 100) :
    ins.summary = summarize_text w.nlp 3 (clean_text ((r.content.getD []) ++
      ' ' :: extract_text_from_url w.httpGet w.soupText (r.url.getD ""))) ∧
    ins.keywords = extract_keywords w.nlp 5 (clean_text ((r.content.getD []) ++
      ' ' :: extract_text_from_url w.httpGet w.soupText (r.url.getD ""))) := by
  have hmap := enhance_ok_insights w resp cfg e h
  rw [hmap, List.getElem?_map, hr] at hins
  have hins2 : (enhanceOne w r).1 = ins := by
    simpa using hins
  have hcond : (truthy r.url && decide ((r.content.getD []).length < 100)) = true := by
    rw [hu]
    simpa using hlen
  rw [← hins2]
  constructor
  · simp only [enhanceOne, hcond, if_true]
  · simp only [enhanceOne, hcond, if_true]

/-- Witness for C5 as amended: a one-character snippet with a fetchable URL
(in `w5` every fetch extracts `ZZZ`). -/
def r5s : RawResult := ⟨none, some "u", some "c".data, none, none, none⟩

/-- The insight the code computes for `r5s` in `w5`: snippet and fetched
text concatenated. -/
def ins5s : Insight := ⟨"No title", some "u", "c ZZZ".data, []⟩

/-- The enhanced response the code computes on `[r5s]` in `w5`. -/
def e5s : Enhanced :=
  ⟨⟨[r5s], none⟩, 0, 1, "general",
   [.general ⟨"No title", "c".data, "u", 0, "Unknown"⟩], [ins5s], none⟩

theorem enhance_concats_fetched_witness :
    ins5s.summary = summarize_text w5.nlp 3 (clean_text ((r5s.content.getD []) ++
      ' ' :: extract_text_from_url w5.httpGet w5.soupText (r5s.url.getD ""))) :=
  (enhance_concats_fetched w5 ⟨[r5s], none⟩ cfg0 e5s 0 r5s ins5s (by rfl) rfl rfl rfl
    (by decide)).1

/-! ## C3 — provider unavailability / failure degrades to the fallback,
with no cache write -/

/-- An enhanced response stored in the cache by concrete evaluations. -/
def e3 : Enhanced := ⟨⟨[], none⟩, 0, 0, "general", [], [], none⟩

/-- A world with no Tavily client and a reachable DuckDuckGo endpoint,
observed 10 s after `e3` was cached. -/
def w3 : World :=
  { h := id, tavily := none, ddg := fun _ => .ok ⟨some "ans", []⟩
    httpGet := fun _ => .error "down", soupText := fun _ => .error "down"
    nlp := none, now := 10 }

/-- The same world observed 1000 s after `e3` was cached (past the 600 s
TTL). -/
def w3b : World :=
  { h := id, tavily := none, ddg := fun _ => .ok ⟨some "ans", []⟩
    httpGet := fun _ => .error "down", soupText := fun _ => .error "down"
    nlp := none, now := 1000 }

/-- A cache holding `e3` for the query `"q"`, stored at time 0. -/
def cache3 : CacheStore Enhanced := set_cached_result id 0 "q" cfg0 e3 []

/-- C3 fails on the code on two counts.  With the primary provider
unavailable but a fresh cache entry present, `search_web` returns the cached
response, not the fallback result.  And with the provider unavailable and
the cache entry stale, the request does reach the fallback, yet the cache
state *is* changed by the request: the stale entry is lazily evicted during
the lookup. -/
theorem search_web_fallback_counterexample :
    w3.tavily = none ∧ w3b.tavily = none ∧
    ¬ (search_web w3 "q" "p" cfg0 cache3).1 = perform_fallback_search w3 "q" ∧
    (search_web w3b "q" "p" cfg0 cache3).1 = perform_fallback_search w3b "q" ∧
    ¬ (search_web w3b "q" "p" cfg0 cache3).2.1 = cache3 :=
  ⟨rfl, rfl, by decide, by rfl, by decide⟩

/-- C3 as amended: on a non-blank query that misses the cache, whenever the
primary provider is unavailable (no client configured) or its dispatch
raises, `search_web` returns the `FallbackProvider`'s result directly —
unenhanced — and writes nothing to the cache: the resulting cache is
exactly the post-lookup cache (at most a lazy eviction of the stale entry)
and no cache-store event is emitted on any fallback or error path. -/
theorem search_web_fallback_uncached (w : World) (q phone : String) (cfg : SearchConfig)
    (cache : CacheStore Enhanced)
    (hq : ¬ pyStrip q = "")
    (hmiss : (get_cached_result w.h w.now q cfg cache).1 = none)
    (hprov : w.tavily = none ∨
      ∃ f err, w.tavily = some f ∧ f (dispatchParams cfg q) = .error err) :
    (search_web w q phone cfg cache).1 = perform_fallback_search w q ∧
    (search_web w q phone cfg cache).2.1 = (get_cached_result w.h w.now q cfg cache).2 ∧
    ∀ k, ¬ Event.cacheStore k ∈ (search_web w q phone cfg cache).2.2 := by
  have hpair : get_cached_result w.h w.now q cfg cache =
      (none, (get_cached_result w.h w.now q cfg cache).2) := by
    rw [← hmiss]
  unfold search_web
  rw [if_neg hq, hpair]
  rcases hprov with hnone | ⟨f, err, hf, herr⟩
  · rw [hnone]
    refine ⟨rfl, rfl, fun k hk => ?_⟩
    simp at hk
  · rw [hf]
    dsimp only
    rw [herr]
    refine ⟨rfl, rfl, fun k hk => ?_⟩
    simp at hk

/-- Witness for C3's amended statement: empty cache, non-blank query, no
Tavily client. -/
theorem search_web_fallback_uncached_witness :
    (search_web w0 "x" "p" cfg0 []).1 = perform_fallback_search w0 "x" ∧
    (search_web w0 "x" "p" cfg0 []).2.1 =
      (get_cached_result w0.h w0.now "x" cfg0 ([] : CacheStore Enhanced)).2 ∧
    ∀ k, ¬ Event.cacheStore k ∈ (search_web w0 "x" "p" cfg0 []).2.2 :=
  search_web_fallback_uncached w0 "x" "p" cfg0 [] (by decide) rfl (Or.inl rfl)

end SearchService
